import Mathlib

/-!
Verification development for `org2opml.py`: an Org-mode outline to OPML
converter.  The Python source is shallowly embedded below.  Strings are
modelled as `List Char`; Python lists of `Node` objects (which are mutated
through shared references) are modelled by an explicit heap `List PNode`
indexed by creation order, so that `parent.add_child(newnode)` becomes a
functional update of the heap.  Fallible operations (Python statements that
can raise `IndexError` / `AttributeError`) return `Except String`.
Only the ASCII part of Python's whitespace notion is modelled
(`[ \t\n\r\x0b\x0c]`); none of the properties below depend on non-ASCII
whitespace.
-/

/-- Python's `\s` character class and `str.strip` whitespace, ASCII part. -/
def pySpace (c : Char) : Bool :=
  c == ' ' || c == '\t' || c == '\n' || c == '\r' || c == '\x0b' || c == '\x0c'

/-- `line.strip()` from `OrgParser.parse` (line 57). -/
def pyStrip (s : List Char) : List Char :=
  ((s.dropWhile pySpace).reverse.dropWhile pySpace).reverse

/-!
### `NODE_RE = re.compile('(?P<level>[*]+)\s+(?P<text>.*)')`, used via `.match`

`re.match` anchors at position 0.  The engine tries the greedy `[*]+` with
the longest possible star run first and backtracks to shorter runs; a run of
`k` stars can match only when the first `k` characters are `'*'`, i.e. when
`k` is at most the length of the leading star run.  After the stars, `\s+`
requires at least one whitespace character, greedily consumes the maximal
whitespace run, and `.*` captures the rest of the line up to a newline
(`.` does not match `'\n'`).
-/

/-- Attempt the `\s+(?P<text>.*)` tail of `NODE_RE` after `[*]+` has
consumed `k` characters. -/
def afterStars (s : List Char) (k : Nat) : Option (List Char) :=
  match s.drop k with
  | [] => none
  | c :: rest =>
    if pySpace c then some (((c :: rest).dropWhile pySpace).takeWhile (fun d => d != '\n'))
    else none

/-- Backtracking over the greedy `[*]+`: try `k` stars, longest first. -/
def tryStars (s : List Char) : Nat → Option (Nat × List Char)
  | 0 => none
  | k + 1 =>
    match afterStars s (k + 1) with
    | some t => some (k + 1, t)
    | none => tryStars s k

/-- `NODE_RE.match(line)`: `some (level, text)` on success
(line 82-85 of the source: `level` is the star count, `text` the capture). -/
def nodeMatch (s : List Char) : Option (Nat × List Char) :=
  tryStars s (s.takeWhile (fun c => c == '*')).length

/-!
### `TITLE_RE` / `AUTHOR_RE` / `ROOT_RE`: `KEY\s*:\s+(?P<g>.*)`, used via `.search`

`re.search` finds the leftmost position at which the pattern matches.  The
pattern starts with the literal `key`, then greedy `\s*`, a colon, greedy
`\s+` (at least one whitespace), and `.*` captures the rest up to a newline.
-/

/-- One attempt of `KEY\s*:\s+(?P<g>.*)` at the start of `s`. -/
def keyMatchAt (key s : List Char) : Option (List Char) :=
  if key.isPrefixOf s then
    match (s.drop key.length).dropWhile pySpace with
    | [] => none
    | c0 :: r2 =>
      if c0 = ':' then
        match r2 with
        | [] => none
        | c :: _ =>
          if pySpace c then some ((r2.dropWhile pySpace).takeWhile (fun d => d != '\n'))
          else none
      else none
  else none

/-- `re.search`: try the pattern at each position, leftmost first. -/
def reSearch (key : List Char) : List Char → Option (List Char)
  | [] => none
  | c :: rest =>
    match keyMatchAt key (c :: rest) with
    | some v => some v
    | none => reSearch key rest

/-- The `Node` class (lines 18-32): `level`, `text`, `children`.  Children
are stored as heap indices (creation-order ids) of the child nodes. -/
structure PNode where
  level : Nat
  text : List Char
  children : List Nat
  deriving Repr, DecidableEq

/-- The mutable tree-building state of `OrgParser`: `self.nodes` (the
level-index structure, a list of lists of node references) together with the
heap of all created `Node` objects.  Slot entries and `children` entries are
heap indices. -/
structure Build where
  heap : List PNode
  nodes : List (List Nat)
  deriving Repr, DecidableEq

/-- The full `OrgParser` state: document metadata plus the building state. -/
structure St where
  title : List Char
  author : List Char
  root_name : List Char
  heap : List PNode
  nodes : List (List Nat)
  deriving Repr, DecidableEq

/-- The freshly constructed parser state (lines 45-49). -/
def st0 : St := ⟨[], [], [], [], []⟩

/-- `OrgParser.handle_meta` (lines 63-77): `line` is the stripped input line
with the `#+` prefix removed. -/
def handle_meta (st : St) (line : List Char) : St :=
  if ("TITLE".toList).isPrefixOf line then
    match reSearch "TITLE".toList line with
    | some v => { st with title := v }
    | none => st
  else if ("AUTHOR".toList).isPrefixOf line then
    match reSearch "AUTHOR".toList line with
    | some v => { st with author := v }
    | none => st
  else if ("ROOT".toList).isPrefixOf line then
    match reSearch "ROOT".toList line with
    | some v => { st with root_name := v }
    | none => st
  else st

/-- `try: self.nodes[i].append(x) except IndexError: self.nodes.append([x])`
(lines 89-92 and 96-99).  In-range: append to slot `i`; out of range: push a
new singleton slot at the end. -/
def appendAtSlot (nodes : List (List Nat)) (i x : Nat) : List (List Nat) :=
  if i < nodes.length then nodes.set i ((nodes.getD i []) ++ [x]) else nodes ++ [[x]]

/-- `parent.add_child(newnode)` (lines 29-32, 94-95): append `cid` to the
children of the heap node at index `pid`. -/
def addChild (heap : List PNode) (pid cid : Nat) : List PNode :=
  match heap.get? pid with
  | some n => heap.set pid { n with children := n.children ++ [cid] }
  | none => heap

/-- The body of `add_node` after a successful `NODE_RE` match
(lines 84-99), acting on the building state.  `self.nodes[level - 2][-1]`
raises `IndexError` when the slot is absent or empty. -/
def insertNode (b : Build) (h : Nat × List Char) : Except String Build :=
  let nid := b.heap.length
  let heap1 := b.heap ++ [⟨h.1, h.2, []⟩]
  if h.1 == 1 then
    Except.ok ⟨heap1, appendAtSlot b.nodes 0 nid⟩
  else
    match b.nodes.get? (h.1 - 2) with
    | none => Except.error "IndexError: list index out of range"
    | some slot =>
      match slot.getLast? with
      | none => Except.error "IndexError: list index out of range"
      | some pid =>
        Except.ok ⟨addChild heap1 pid nid, appendAtSlot b.nodes (h.1 - 1) nid⟩

/-- `OrgParser.add_node` (lines 79-99): if `NODE_RE.match` fails nothing
happens, otherwise the node is created and linked. -/
def add_node (st : St) (line : List Char) : Except String St :=
  match nodeMatch line with
  | none => Except.ok st
  | some h =>
    match insertNode ⟨st.heap, st.nodes⟩ h with
    | Except.ok b => Except.ok { st with heap := b.heap, nodes := b.nodes }
    | Except.error e => Except.error e

/-- One iteration of the loop in `OrgParser.parse` (lines 56-61): strip the
line, dispatch on the `#+` and `*` prefixes. -/
def processLine (st : St) (line : List Char) : Except String St :=
  let l := pyStrip line
  if ("#+".toList).isPrefixOf l then Except.ok (handle_meta st (l.drop 2))
  else if ("*".toList).isPrefixOf l then add_node st l
  else Except.ok st

/-- `OrgParser.parse` (lines 53-61) over the list of input lines.  A Python
`IndexError` inside `add_node` aborts the whole run. -/
def parse : St → List (List Char) → Except String St
  | st, [] => Except.ok st
  | st, line :: ls =>
    match processLine st line with
    | Except.ok st' => parse st' ls
    | Except.error e => Except.error e

/-- Running only the tree-building part over the already-classified
headlines `(level, text)` in document order. -/
def runHeads : Build → List (Nat × List Char) → Except String Build
  | b, [] => Except.ok b
  | b, h :: hs =>
    match insertNode b h with
    | Except.ok b' => runHeads b' hs
    | Except.error e => Except.error e

/-- The headline sequence of an input: the lines whose stripped form matches
`NODE_RE`, as `(level, text)` pairs, in document order. -/
def headsOf (lines : List (List Char)) : List (Nat × List Char) :=
  lines.filterMap (fun l => nodeMatch (pyStrip l))

/-- An XML element as built by `xml.etree.ElementTree`: tag, attributes,
optional text content, child elements. -/
inductive Elem where
  | mk (tag : List Char) (attrs : List (List Char × List Char))
       (content : Option (List Char)) (children : List Elem)

instance : Inhabited Elem := ⟨Elem.mk [] [] none []⟩

def Elem.tagOf : Elem → List Char
  | Elem.mk t _ _ _ => t

def Elem.attrsOf : Elem → List (List Char × List Char)
  | Elem.mk _ a _ _ => a

def Elem.contentOf : Elem → Option (List Char)
  | Elem.mk _ _ c _ => c

def Elem.kids : Elem → List Elem
  | Elem.mk _ _ _ cs => cs

/-- `text` of the heap node with id `i`. -/
def textOf (heap : List PNode) (i : Nat) : List Char :=
  (heap.getD i ⟨0, [], []⟩).text

/-- `iterate_children` (lines 121-125): the outline elements built for the
children of node `i`, recursively.  `fuel` bounds the recursion depth;
`heap.length` is always enough because children ids strictly exceed their
parent's id. -/
def childOutlines (heap : List PNode) : Nat → Nat → List Elem
  | 0, _ => []
  | fuel + 1, i =>
    match heap.get? i with
    | none => []
    | some n =>
      n.children.map (fun c =>
        Elem.mk "outline".toList [("text".toList, textOf heap c)] none
          (childOutlines heap fuel c))

/-- `OrgParser.to_opml` (lines 101-147), up to the point where the XML string
is written out; the result is the root `opml` element.

Line 106 tests `len(self.nodes) == 1` — the number of *level slots*, not the
number of root nodes — and line 107 then evaluates `self.nodes[0].text`,
where `self.nodes[0]` is a Python `list`, which unconditionally raises
`AttributeError`.  Consequently `skip_root` can never be `True` on a run
that completes, and the `skip_root` serialization branch of lines 133-134 is
dead code.  Line 128 (`for root_node in self.nodes[0]`) raises `IndexError`
when `self.nodes` is empty. -/
def to_opml (st : St) : Except String Elem :=
  if st.nodes.length == 1 then
    Except.error "AttributeError: list object has no attribute text"
  else
    match st.nodes.get? 0 with
    | none => Except.error "IndexError: list index out of range"
    | some slot0 =>
      let fuel := st.heap.length
      let rootEls := slot0.map (fun rid =>
        Elem.mk "outline".toList [("text".toList, textOf st.heap rid)] none
          (childOutlines st.heap fuel rid))
      Except.ok (Elem.mk "opml".toList [("version".toList, "1.0".toList)] none
        [Elem.mk "head".toList [] none
          [Elem.mk "title".toList [] (some st.title) [],
           Elem.mk "ownername".toList [] (some st.author) []],
         Elem.mk "body".toList [] none
          [Elem.mk "outline".toList [("text".toList, st.root_name)] none rootEls]])

/-- The whole pipeline of `__main__` (lines 155-157) on the list of input
lines: `parse` then `to_opml`.  An error means the Python process dies with
an uncaught exception and no output file is written. -/
def runPipeline (lines : List (List Char)) : Except String Elem :=
  match parse st0 lines with
  | Except.ok st => to_opml st
  | Except.error e => Except.error e

mutual

/-- Number of `outline` elements in an XML tree. -/
def countOutlines : Elem → Nat
  | Elem.mk t _ _ cs => (if t = "outline".toList then 1 else 0) + countOutlinesL cs

def countOutlinesL : List Elem → Nat
  | [] => 0
  | e :: es => countOutlines e + countOutlinesL es

end

/-- The list of levels of a headline sequence. -/
def levelsOf (hs : List (Nat × List Char)) : List Nat := hs.map Prod.fst

/-- `childCond levels i j`: headline `j` gets attached as a child of the node
created by headline `i`.  This is the behaviour of lines 93-95: headline `j`
of level `L+1` is attached to the most recently seen node of level `L`, i.e.
to the greatest `i < j` whose level equals `levels j - 1`, regardless of any
intervening headlines of other levels. -/
def childCond (levels : List Nat) (i j : Nat) : Bool :=
  decide (i < j) && (levels.getD j 0 == levels.getD i 0 + 1) &&
    ((List.range j).all (fun k => !(decide (i < k) && (levels.getD k 0 == levels.getD i 0))))

instance {ε : Type u} {α : Type v} [DecidableEq ε] [DecidableEq α] :
    DecidableEq (Except ε α) := fun x y =>
  match x, y with
  | Except.ok a, Except.ok b =>
    if h : a = b then Decidable.isTrue (by subst h; rfl)
    else Decidable.isFalse (fun hc => h (Except.ok.inj hc))
  | Except.ok _, Except.error _ => Decidable.isFalse (fun hc => Except.noConfusion hc)
  | Except.error _, Except.ok _ => Decidable.isFalse (fun hc => Except.noConfusion hc)
  | Except.error a, Except.error b =>
    if h : a = b then Decidable.isTrue (by subst h; rfl)
    else Decidable.isFalse (fun hc => h (Except.error.inj hc))

/-- C1: the claim says that on a forest with exactly one root node the
serializer runs in skip-root mode, using the root's text as wrapper text and
flattening the root out of the body.  The code instead tests
`len(self.nodes) == 1` (number of level slots) and would crash on
`self.nodes[0].text`; on the input `* Root / ** Child1 / ** Child2` (exactly
one root) the wrapper's `text` attribute is the empty string and the body
wrapper's single child is the `Root` element itself — the root is not
flattened and its text is not used. -/
theorem c1_skip_root_code_bug :
    (runPipeline ["* Root".toList, "** Child1".toList, "** Child2".toList]).map
        (fun doc =>
          (((doc.kids.getD 1 default).kids.getD 0 default).attrsOf,
           ((doc.kids.getD 1 default).kids.getD 0 default).kids.map Elem.attrsOf))
      = Except.ok ([("text".toList, ([] : List Char))],
                   [[("text".toList, "Root".toList)]]) := by rfl

/-- C2: the claim says that two level-1 headlines and no ROOT metadata yield
a document whose synthetic wrapper has empty text and contains `A` and `B`.
On `* A / * B` the level-index structure has exactly one slot, so line 106's
`len(self.nodes) == 1` test fires and line 107 evaluates
`self.nodes[0].text` on a list, raising `AttributeError`: the pipeline
crashes and no document is produced. -/
theorem c2_two_roots_crash :
    runPipeline ["* A".toList, "* B".toList]
      = Except.error "AttributeError: list object has no attribute text" := by rfl

/-- C8: the claim says skip-root serialization of an `N`-node forest yields
exactly `N` outline elements.  On `* A` (a one-node forest, the skip-root
situation) the pipeline instead raises `AttributeError` and produces no
document at all; the `N + 1` count of the non-skip branch does hold, e.g.
`* A / ** B` (`N = 2`) yields `3` outline elements. -/
theorem c8_count_code_bug :
    runPipeline ["* A".toList]
        = Except.error "AttributeError: list object has no attribute text"
      ∧ (runPipeline ["* A".toList, "** B".toList]).map countOutlines
        = Except.ok 3 := ⟨rfl, rfl⟩

/-- C4 counterexample: on the headline sequence of levels `1, 2, 1, 3`
(input `* A / ** B / * C / *** D`) the claim predicts that the level-2 node
`B` has zero children, the window for its children being closed by the
level-1 headline `* C`.  The code instead attaches `*** D` to `B` (the last
node in slot 1), so `B` ends up with one child. -/
theorem c4_counterexample :
    (parse st0 ["* A".toList, "** B".toList, "* C".toList, "*** D".toList]).map
        (fun st => ((st.heap.getD 1 ⟨0, [], []⟩).level,
                    (st.heap.getD 1 ⟨0, [], []⟩).children.length))
      = Except.ok (2, 1) := by rfl

/-- C5 counterexample: the claim says `#+TITLE:Demo` (no space after the
colon) sets the title to `Demo`.  `TITLE_RE` requires `\s+` — at least one
whitespace character — after the colon, so the line is silently ignored and
the title stays empty. -/
theorem c5_counterexample :
    processLine st0 ("#+TITLE:Demo".toList) = Except.ok st0 ∧ st0.title = [] :=
  ⟨rfl, rfl⟩

/-! ### Generic list helpers -/

lemma dropWhile_eq_self_of_all {α : Type u} (p : α → Bool) {l : List α}
    (h : ∀ c ∈ l, p c = false) : l.dropWhile p = l := by
  cases l with
  | nil => rfl
  | cons a t => simp [List.dropWhile_cons, h a (by simp)]

lemma takeWhile_eq_self_of_all {α : Type u} (p : α → Bool) {l : List α}
    (h : ∀ c ∈ l, p c = true) : l.takeWhile p = l := by
  induction l with
  | nil => rfl
  | cons a t ih =>
    simp only [List.takeWhile_cons, h a (by simp), if_true]
    rw [ih (fun c hc => h c (by simp [hc]))]

lemma dropWhile_eq_self_of_head? {α : Type u} (p : α → Bool) {l : List α}
    (h : ∀ c, l.head? = some c → p c = false) : l.dropWhile p = l := by
  cases l with
  | nil => rfl
  | cons a t => simp [List.dropWhile_cons, h a rfl]

lemma pyStrip_eq_self {s : List Char}
    (hh : ∀ c, s.head? = some c → pySpace c = false)
    (hl : ∀ c, s.getLast? = some c → pySpace c = false) : pyStrip s = s := by
  unfold pyStrip
  rw [dropWhile_eq_self_of_head? _ hh]
  rw [dropWhile_eq_self_of_head? _
    (fun c hc => hl c (by rwa [List.head?_reverse] at hc))]
  exact List.reverse_reverse s

/-! ### Characterization of the `NODE_RE` matcher -/

lemma afterStars_none_of_lt_run {s : List Char} {k : Nat}
    (h : k < (s.takeWhile (fun c => c == '*')).length) : afterStars s k = none := by
  have hk : k < s.length :=
    lt_of_lt_of_le h (List.takeWhile_sublist _).length_le
  have hstar : s[k] = '*' := by
    have hpfx : s.takeWhile (fun c => c == '*') <+: s := List.takeWhile_prefix _
    have hmem : (s.takeWhile (fun c => c == '*'))[k] ∈ s.takeWhile (fun c => c == '*') :=
      List.getElem_mem h
    have hp : ((s.takeWhile (fun c => c == '*'))[k] == '*') = true :=
      List.mem_takeWhile_imp (p := fun c => c == '*') hmem
    have he : (s.takeWhile (fun c => c == '*'))[k] = s[k] := hpfx.getElem h
    rw [he] at hp
    exact eq_of_beq hp
  unfold afterStars
  rw [List.drop_eq_getElem_cons hk, hstar]
  simp [pySpace]

lemma tryStars_none {s : List Char} {m : Nat}
    (h : ∀ k, 1 ≤ k → k ≤ m → afterStars s k = none) : tryStars s m = none := by
  induction m with
  | zero => rfl
  | succ n ih =>
    unfold tryStars
    rw [h (n + 1) (by omega) (le_refl _)]
    exact ih (fun k h1 h2 => h k h1 (by omega))

lemma nodeMatch_some {s : List Char} {L : Nat} {t : List Char}
    (h : nodeMatch s = some (L, t)) :
    L = (s.takeWhile (fun c => c == '*')).length ∧ 1 ≤ L ∧ afterStars s L = some t := by
  unfold nodeMatch at h
  rcases hm : (s.takeWhile (fun c => c == '*')).length with _ | n
  · rw [hm] at h; exact absurd h (by simp [tryStars])
  · rw [hm] at h
    cases ha : afterStars s (n + 1) with
    | some t' =>
      unfold tryStars at h
      rw [ha] at h
      obtain ⟨h1, h2⟩ := Prod.mk.inj (Option.some.inj h)
      refine ⟨by omega, by omega, ?_⟩
      rw [← h1, ha, h2]
    | none =>
      unfold tryStars at h
      rw [ha] at h
      have : tryStars s n = none :=
        tryStars_none (fun k h1 h2 => afterStars_none_of_lt_run (by omega))
      rw [this] at h
      exact absurd h (by simp)

lemma nodeMatch_of_afterStars {s t : List Char}
    (h1 : 1 ≤ (s.takeWhile (fun c => c == '*')).length)
    (h2 : afterStars s (s.takeWhile (fun c => c == '*')).length = some t) :
    nodeMatch s = some ((s.takeWhile (fun c => c == '*')).length, t) := by
  unfold nodeMatch
  rcases hm : (s.takeWhile (fun c => c == '*')).length with _ | n
  · omega
  · rw [hm] at h2
    unfold tryStars
    rw [h2]

lemma nodeMatch_none_of_not_star {s : List Char}
    (h : ("*".toList).isPrefixOf s = false) : nodeMatch s = none := by
  have hrun : (s.takeWhile (fun c => c == '*')).length = 0 := by
    cases s with
    | nil => rfl
    | cons a t =>
      have ha : (a == '*') = false := by
        by_contra hne
        have : a = '*' := eq_of_beq (by revert hne; cases (a == '*') <;> simp)
        subst this
        simp [List.isPrefixOf] at h
      simp [List.takeWhile_cons, ha]
  unfold nodeMatch
  rw [hrun]
  rfl

lemma nodeMatch_some_star {s : List Char} {L : Nat} {t : List Char}
    (h : nodeMatch s = some (L, t)) : ("*".toList).isPrefixOf s = true := by
  by_contra hne
  have : ("*".toList).isPrefixOf s = false := by revert hne; cases ("*".toList).isPrefixOf s <;> simp
  rw [nodeMatch_none_of_not_star this] at h
  exact absurd h (by simp)

lemma nodeMatch_level_pos {s : List Char} {L : Nat} {t : List Char}
    (h : nodeMatch s = some (L, t)) : 1 ≤ L :=
  (nodeMatch_some h).2.1

/-! ### Structure of `parse` -/

lemma star_prefix_shape {s : List Char} (h : ("*".toList).isPrefixOf s = true) :
    ∃ r, s = '*' :: r := by
  cases s with
  | nil => simp [List.isPrefixOf] at h
  | cons a t =>
    have ha : ('*' == a) = true := by simpa [List.isPrefixOf] using h
    exact ⟨t, by rw [← eq_of_beq ha]⟩

lemma hash_not_prefix_star (r : List Char) :
    ("#+".toList).isPrefixOf ('*' :: r) = false := by
  have hc : ('#' == '*') = false := rfl
  simp [List.isPrefixOf, hc]

lemma handle_meta_build (st : St) (l : List Char) :
    (handle_meta st l).heap = st.heap ∧ (handle_meta st l).nodes = st.nodes := by
  constructor <;> (unfold handle_meta; repeat' split) <;> rfl

lemma parse_append (a b : List (List Char)) : ∀ st, parse st (a ++ b) =
    match parse st a with
    | Except.ok st' => parse st' b
    | Except.error e => Except.error e := by
  induction a with
  | nil => intro st; rfl
  | cons l ls ih =>
    intro st
    show (match processLine st l with
          | Except.ok st' => parse st' (ls ++ b)
          | Except.error e => Except.error e)
      = match (match processLine st l with
               | Except.ok st' => parse st' ls
               | Except.error e => Except.error e) with
        | Except.ok st' => parse st' b
        | Except.error e => Except.error e
    cases processLine st l with
    | ok st' => exact ih st'
    | error e => rfl

lemma runHeads_append (a b : List (Nat × List Char)) : ∀ bd, runHeads bd (a ++ b) =
    match runHeads bd a with
    | Except.ok bd' => runHeads bd' b
    | Except.error e => Except.error e := by
  induction a with
  | nil => intro bd; rfl
  | cons h hs ih =>
    intro bd
    show (match insertNode bd h with
          | Except.ok bd' => runHeads bd' (hs ++ b)
          | Except.error e => Except.error e)
      = match (match insertNode bd h with
               | Except.ok bd' => runHeads bd' hs
               | Except.error e => Except.error e) with
        | Except.ok bd' => runHeads bd' b
        | Except.error e => Except.error e
    cases insertNode bd h with
    | ok bd' => exact ih bd'
    | error e => rfl

lemma add_node_index_error {st : St} {s : List Char} {L : Nat} {t : List Char}
    (hl : nodeMatch s = some (L, t)) (hL : 2 ≤ L)
    (hslot : st.nodes.get? (L - 2) = none ∨ st.nodes.get? (L - 2) = some []) :
    add_node st s = Except.error "IndexError: list index out of range" := by
  have hL1 : (L == 1) = false := by
    simpa using (by omega : L ≠ 1)
  unfold add_node
  rw [hl]
  unfold insertNode
  simp only [hL1, Bool.false_eq_true, if_false]
  rcases hslot with hs | hs <;> rw [hs]
  rfl

/-- C3: a headline of level `L ≥ 2` arriving when slot `L-2` of the
level-index structure is absent (or empty, which in fact never occurs in a
reachable state) makes the parent lookup `self.nodes[level - 2][-1]` raise
`IndexError`: the whole run aborts with that error and no output document is
produced, instead of the node being silently misattached. -/
theorem c3_malformed_level_jump (pre post : List (List Char)) (l : List Char)
    (st : St) (L : Nat) (t : List Char)
    (hpre : parse st0 pre = Except.ok st)
    (hl : nodeMatch (pyStrip l) = some (L, t))
    (hL : 2 ≤ L)
    (hslot : st.nodes.get? (L - 2) = none ∨ st.nodes.get? (L - 2) = some []) :
    runPipeline (pre ++ l :: post) = Except.error "IndexError: list index out of range" := by
  obtain ⟨r, hr⟩ := star_prefix_shape (nodeMatch_some_star hl)
  have hpl : processLine st l = Except.error "IndexError: list index out of range" := by
    have hstar : ("*".toList).isPrefixOf ('*' :: r) = true := by
      simp [List.isPrefixOf]
    unfold processLine
    rw [hr]
    simp only [hash_not_prefix_star, hstar, Bool.false_eq_true, if_false, if_true]
    rw [← hr]
    exact add_node_index_error hl hL hslot
  have hparse : parse st0 (pre ++ l :: post)
      = Except.error "IndexError: list index out of range" := by
    rw [parse_append _ _ st0, hpre]
    show (match processLine st l with
          | Except.ok st' => parse st' post
          | Except.error e => Except.error e) = _
    rw [hpl]
  unfold runPipeline
  rw [hparse]

/-- C3 witness: `* A` followed by `*** C` (a level-3 headline with no
preceding level-2 headline) aborts the pipeline with the `IndexError`. -/
theorem c3_malformed_level_jump_witness :
    nodeMatch (pyStrip "*** C".toList) = some (3, "C".toList)
    ∧ runPipeline ["* A".toList, "*** C".toList]
        = Except.error "IndexError: list index out of range" :=
  ⟨by decide,
   c3_malformed_level_jump ["* A".toList] [] "*** C".toList
     ⟨[], [], [], [⟨1, "A".toList, []⟩], [[0]]⟩ 3 "C".toList
     (by decide) (by decide) (by omega) (Or.inl (by decide))⟩

/-! ### Helpers for headline-shape reasoning -/

lemma takeWhile_replicate_append {α : Type u} (p : α → Bool) (a : α) (ha : p a = true)
    (k : Nat) (l : List α) :
    (List.replicate k a ++ l).takeWhile p = List.replicate k a ++ l.takeWhile p := by
  induction k with
  | zero => simp
  | succ n ih => simp [List.replicate_succ, List.takeWhile_cons, ha, ih]

lemma pySpace_ne_star {c : Char} (hc : pySpace c = true) : (c == '*') = false := by
  by_contra hne
  have hcs : c = '*' := eq_of_beq (by revert hne; cases (c == '*') <;> simp)
  subst hcs
  simp [pySpace] at hc

lemma afterStars_cons {s : List Char} {k : Nat} {c : Char} {rest : List Char}
    (hd : s.drop k = c :: rest) :
    afterStars s k = if pySpace c = true
      then some (((c :: rest).dropWhile pySpace).takeWhile (fun d => d != '\n'))
      else none := by
  unfold afterStars
  rw [hd]

/-- C6: the headline classifier.  Soundness: a successful `NODE_RE` match on
a newline-free line yields the count of leading `'*'` characters as the
level and the content after the whitespace run as the text; the match
requires at least one star followed by a whitespace character.
Completeness: a line of `k ≥ 1` stars followed by a whitespace character is
recognized exactly so.  Lines starting with `'*'` that do not match (no
whitespace after the star run) leave the whole builder state unchanged. -/
theorem c6_headline_recognition (s : List Char) (st : St) (hnl : '\n' ∉ s) :
    (∀ L t, nodeMatch s = some (L, t) →
        L = (s.takeWhile (fun c => c == '*')).length ∧ 1 ≤ L
        ∧ (∃ c r, s.drop L = c :: r ∧ pySpace c = true)
        ∧ t = (s.drop L).dropWhile pySpace)
    ∧ (∀ k c r, s = List.replicate k '*' ++ c :: r → 1 ≤ k → pySpace c = true →
        nodeMatch s = some (k, (c :: r).dropWhile pySpace))
    ∧ (nodeMatch s = none → add_node st s = Except.ok st) := by
  refine ⟨?_, ?_, ?_⟩
  · intro L t h
    obtain ⟨hL, h1, ha⟩ := nodeMatch_some h
    refine ⟨hL, h1, ?_, ?_⟩
    · cases hd : s.drop L with
      | nil => unfold afterStars at ha; rw [hd] at ha; exact absurd ha (by simp)
      | cons c rest =>
        rw [afterStars_cons hd] at ha
        by_cases hc : pySpace c = true
        · exact ⟨c, rest, rfl, hc⟩
        · rw [if_neg hc] at ha; exact absurd ha (by simp)
    · cases hd : s.drop L with
      | nil => unfold afterStars at ha; rw [hd] at ha; exact absurd ha (by simp)
      | cons c rest =>
        rw [afterStars_cons hd] at ha
        by_cases hc : pySpace c = true
        · rw [if_pos hc] at ha
          have ht : t = ((c :: rest).dropWhile pySpace).takeWhile (fun d => d != '\n') :=
            (Option.some.inj ha).symm
          rw [ht]
          refine takeWhile_eq_self_of_all _ (fun d hd2 => ?_)
          have hmem : d ∈ s := by
            have h1 : d ∈ (c :: rest) :=
              (List.dropWhile_suffix pySpace).subset hd2
            have h2 : d ∈ s.drop L := by rw [hd]; exact h1
            exact List.drop_subset _ _ h2
          have : d ≠ '\n' := fun he => hnl (he ▸ hmem)
          simpa using this
        · rw [if_neg hc] at ha; exact absurd ha (by simp)
  · intro k c r hs h1 hc
    have hrun : s.takeWhile (fun x => x == '*') = List.replicate k '*' := by
      rw [hs, takeWhile_replicate_append _ _ (by simp) k]
      simp [List.takeWhile_cons, pySpace_ne_star hc]
    have hlen : (s.takeWhile (fun x => x == '*')).length = k := by
      rw [hrun]; simp
    have hdrop : s.drop k = c :: r := by
      have hx := List.drop_left (List.replicate k '*') (c :: r)
      rw [List.length_replicate] at hx
      rw [hs]
      exact hx
    have hafter : afterStars s k = some ((c :: r).dropWhile pySpace) := by
      rw [afterStars_cons hdrop, if_pos hc]
      congr 1
      refine takeWhile_eq_self_of_all _ (fun d hd2 => ?_)
      have hmem : d ∈ s := by
        have hh : d ∈ (c :: r) := (List.dropWhile_suffix pySpace).subset hd2
        rw [hs]
        exact List.mem_append_right _ hh
      have : d ≠ '\n' := fun he => hnl (he ▸ hmem)
      simpa using this
    have hnm := nodeMatch_of_afterStars (s := s) (t := (c :: r).dropWhile pySpace)
      (by rw [hlen]; omega) (by rw [hlen]; exact hafter)
    rw [hlen] at hnm
    exact hnm
  · intro h
    unfold add_node
    rw [h]

/-- C6 witness: `** Hi` is recognized as a level-2 headline with text `Hi`,
and match failure (as on `*bold*`) leaves the state unchanged. -/
theorem c6_headline_recognition_witness :
    ('\n' ∉ "** Hi".toList)
    ∧ nodeMatch "** Hi".toList = some (2, "Hi".toList)
    ∧ add_node st0 "*bold*".toList = Except.ok st0 :=
  ⟨by decide,
   (c6_headline_recognition "** Hi".toList st0 (by decide)).2.1 2 ' ' "Hi".toList
     (by decide) (by decide) (by decide),
   (c6_headline_recognition "*bold*".toList st0 (by decide)).2.2 (by decide)⟩

/-! ### Lines that are not headlines never touch the building state -/

lemma processLine_cases (st : St) (l : List Char) :
    processLine st l =
      if ("#+".toList).isPrefixOf (pyStrip l) = true
      then Except.ok (handle_meta st ((pyStrip l).drop 2))
      else if ("*".toList).isPrefixOf (pyStrip l) = true
           then add_node st (pyStrip l) else Except.ok st := rfl

lemma processLine_build_no_head {st : St} {l : List Char}
    (hl : nodeMatch (pyStrip l) = none) :
    ∃ st1, processLine st l = Except.ok st1
      ∧ st1.heap = st.heap ∧ st1.nodes = st.nodes := by
  rw [processLine_cases]
  by_cases h1 : ("#+".toList).isPrefixOf (pyStrip l) = true
  · rw [if_pos h1]
    exact ⟨_, rfl, (handle_meta_build st _).1, (handle_meta_build st _).2⟩
  · rw [if_neg h1]
    by_cases h2 : ("*".toList).isPrefixOf (pyStrip l) = true
    · rw [if_pos h2]
      refine ⟨st, ?_, rfl, rfl⟩
      unfold add_node
      rw [hl]
    · rw [if_neg h2]
      exact ⟨st, rfl, rfl, rfl⟩

lemma parse_no_heads (lines : List (List Char)) : ∀ st : St,
    (∀ l ∈ lines, nodeMatch (pyStrip l) = none) →
    ∃ st', parse st lines = Except.ok st'
      ∧ st'.heap = st.heap ∧ st'.nodes = st.nodes := by
  induction lines with
  | nil => intro st _; exact ⟨st, rfl, rfl, rfl⟩
  | cons l ls ih =>
    intro st h
    obtain ⟨st1, hpl, hh1, hn1⟩ := processLine_build_no_head (h l (by simp))
    obtain ⟨st', hps, hh2, hn2⟩ := ih st1 (fun x hx => h x (by simp [hx]))
    refine ⟨st', ?_, by rw [hh2, hh1], by rw [hn2, hn1]⟩
    show (match processLine st l with
          | Except.ok st2 => parse st2 ls
          | Except.error e => Except.error e) = Except.ok st'
    rw [hpl]
    exact hps

/-- C9: an input with no headline lines at all (empty file, or only metadata
and prose) parses to a state with an empty level-index structure, and
`to_opml` then raises `IndexError` at `for root_node in self.nodes[0]`
(line 128): the pipeline aborts and no output file is written, so the
program never produces an OPML document with an empty body. -/
theorem c9_no_headlines_index_error (lines : List (List Char))
    (h : ∀ l ∈ lines, nodeMatch (pyStrip l) = none) :
    runPipeline lines = Except.error "IndexError: list index out of range" := by
  obtain ⟨st', hp, _, hn⟩ := parse_no_heads lines st0 h
  have hn' : st'.nodes = [] := hn
  unfold runPipeline
  rw [hp]
  show to_opml st' = _
  unfold to_opml
  rw [hn']
  rfl

/-- C9 witness: a file with one metadata line and one prose line hits the
`IndexError` and yields no document. -/
theorem c9_no_headlines_index_error_witness :
    (∀ l ∈ [("#+TITLE: Demo").toList, "hello".toList], nodeMatch (pyStrip l) = none)
    ∧ runPipeline [("#+TITLE: Demo").toList, "hello".toList]
        = Except.error "IndexError: list index out of range" :=
  ⟨by decide,
   c9_no_headlines_index_error [("#+TITLE: Demo").toList, "hello".toList] (by decide)⟩

/-! ### Shape of slot updates -/

lemma insertNode_nodes_shape {b : Build} {h : Nat × List Char} {b' : Build}
    (hok : insertNode b h = Except.ok b') :
    ∃ i, b'.nodes = appendAtSlot b.nodes i b.heap.length := by
  unfold insertNode at hok
  by_cases h1 : (h.1 == 1) = true
  · rw [if_pos h1] at hok
    exact ⟨0, by rw [← Except.ok.inj hok]⟩
  · rw [if_neg h1] at hok
    cases hg : b.nodes.get? (h.1 - 2) with
    | none => rw [hg] at hok; exact absurd hok (by simp)
    | some slot =>
      rw [hg] at hok
      have hok2 : (match slot.getLast? with
            | none => (Except.error "IndexError: list index out of range" : Except String Build)
            | some pid =>
              Except.ok ⟨addChild (b.heap ++ [⟨h.1, h.2, []⟩]) pid b.heap.length,
                         appendAtSlot b.nodes (h.1 - 1) b.heap.length⟩) = Except.ok b' := hok
      cases hgl : slot.getLast? with
      | none => rw [hgl] at hok2; exact absurd hok2 (by simp)
      | some pid =>
        rw [hgl] at hok2
        exact ⟨h.1 - 1, by rw [← Except.ok.inj hok2]⟩

lemma appendAtSlot_facts (nodes : List (List Nat)) (i x : Nat)
    (hne : ∀ s ∈ nodes, s ≠ []) :
    (∀ s ∈ appendAtSlot nodes i x, s ≠ [])
    ∧ nodes.length ≤ (appendAtSlot nodes i x).length
    ∧ (appendAtSlot nodes i x).length ≤ nodes.length + 1
    ∧ (∀ j, j < nodes.length → nodes.getD j [] <+: (appendAtSlot nodes i x).getD j [])
    ∧ ((appendAtSlot nodes i x).length = nodes.length + 1 →
        (appendAtSlot nodes i x).getD nodes.length [] = [x]) := by
  unfold appendAtSlot
  by_cases hi : i < nodes.length
  · rw [if_pos hi]
    refine ⟨?_, by simp, by simp, ?_, ?_⟩
    · intro s hs
      rcases List.mem_or_eq_of_mem_set hs with h1 | h1
      · exact hne s h1
      · rw [h1]; simp
    · intro j hj
      by_cases hji : j = i
      · subst hji
        rw [List.getD_eq_getElem?_getD (l := nodes.set j (nodes.getD j [] ++ [x])),
            List.getElem?_set_self hj]
        exact List.prefix_append _ _
      · rw [List.getD_eq_getElem?_getD (l := nodes.set i (nodes.getD i [] ++ [x])),
            List.getElem?_set_ne (fun he => hji he.symm),
            ← List.getD_eq_getElem?_getD]
    · intro hlen
      rw [List.length_set] at hlen
      omega
  · rw [if_neg hi]
    refine ⟨?_, by simp, by simp, ?_, ?_⟩
    · intro s hs
      rcases List.mem_append.mp hs with h1 | h1
      · exact hne s h1
      · simp at h1; rw [h1]; simp
    · intro j hj
      rw [List.getD_eq_getElem?_getD (l := nodes ++ [[x]]), List.getElem?_append_left hj,
          ← List.getD_eq_getElem?_getD]
    · intro _
      rw [List.getD_eq_getElem?_getD (l := nodes ++ [[x]]), List.getElem?_concat_length]
      rfl

/-- C10: one successful `add_node` step preserves the level-index invariant:
every slot stays a non-empty list, existing slots are only extended at their
end, the slot list grows by at most one, and a new slot can only appear at
index `len(self.nodes)` as the singleton holding the new node. -/
theorem c10_slots_invariant (st : St) (line : List Char) (st' : St)
    (hne : ∀ s ∈ st.nodes, s ≠ [])
    (hok : add_node st line = Except.ok st') :
    (∀ s ∈ st'.nodes, s ≠ [])
    ∧ st.nodes.length ≤ st'.nodes.length
    ∧ st'.nodes.length ≤ st.nodes.length + 1
    ∧ (∀ j, j < st.nodes.length → st.nodes.getD j [] <+: st'.nodes.getD j [])
    ∧ (st'.nodes.length = st.nodes.length + 1 →
        st'.nodes.getD st.nodes.length [] = [st.heap.length]) := by
  cases hnm : nodeMatch line with
  | none =>
    unfold add_node at hok
    rw [hnm] at hok
    rw [← Except.ok.inj hok]
    exact ⟨hne, le_refl _, by omega, fun j _ => List.prefix_refl _, by omega⟩
  | some h =>
    unfold add_node at hok
    rw [hnm] at hok
    have hok2 : (match insertNode ⟨st.heap, st.nodes⟩ h with
          | Except.ok b => Except.ok { st with heap := b.heap, nodes := b.nodes }
          | Except.error e => (Except.error e : Except String St)) = Except.ok st' := hok
    cases hins : insertNode ⟨st.heap, st.nodes⟩ h with
    | error e => rw [hins] at hok2; exact absurd hok2 (by simp)
    | ok b =>
      rw [hins] at hok2
      obtain ⟨i, hi⟩ := insertNode_nodes_shape hins
      rw [← Except.ok.inj hok2]
      show (∀ s ∈ b.nodes, s ≠ []) ∧ _ ∧ b.nodes.length ≤ _ ∧ _ ∧ _
      rw [hi]
      exact appendAtSlot_facts st.nodes i st.heap.length hne

/-- A state reached by one `add_node` step from the initial state, used by
the C10 witness. -/
def stepSt : St := ⟨[], [], [], [⟨1, "A".toList, []⟩], [[0]]⟩

/-- C10 witness: the step `add_node` on `* A` from the fresh state creates
slot 0 as the singleton `[0]` and satisfies all invariant clauses. -/
theorem c10_slots_invariant_witness :
    (∀ s ∈ st0.nodes, s ≠ [])
    ∧ ((∀ s ∈ stepSt.nodes, s ≠ [])
       ∧ st0.nodes.length ≤ stepSt.nodes.length
       ∧ stepSt.nodes.length ≤ st0.nodes.length + 1
       ∧ (∀ j, j < st0.nodes.length → st0.nodes.getD j [] <+: stepSt.nodes.getD j [])
       ∧ (stepSt.nodes.length = st0.nodes.length + 1 →
           stepSt.nodes.getD st0.nodes.length [] = [st0.heap.length])) :=
  ⟨by decide,
   c10_slots_invariant st0 "* A".toList stepSt (by decide) (by decide)⟩

/-! ### Metadata matching: the `\s+` after the colon is mandatory -/

lemma isPrefixOf_append (a b : List Char) : a.isPrefixOf (a ++ b) = true := by
  rw [List.isPrefixOf_iff_prefix]
  exact List.prefix_append a b

lemma isPrefixOf_head_ne {a b : Char} (h : (a == b) = false) (as bs : List Char) :
    (a :: as).isPrefixOf (b :: bs) = false := by
  simp [List.isPrefixOf, h]

lemma keyMatchAt_none_of_no_space (key : List Char) {s : List Char}
    (h : ∀ c ∈ s, pySpace c = false) : keyMatchAt key s = none := by
  unfold keyMatchAt
  by_cases hp : key.isPrefixOf s = true
  · rw [if_pos hp]
    have hsub : ∀ c ∈ (s.drop key.length).dropWhile pySpace, pySpace c = false := by
      intro c hc
      have h1 : c ∈ s.drop key.length := (List.dropWhile_suffix pySpace).subset hc
      exact h c (List.drop_subset _ _ h1)
    cases hd : (s.drop key.length).dropWhile pySpace with
    | nil => rfl
    | cons c0 r =>
      rw [hd] at hsub
      show (if c0 = ':' then
              match r with
              | [] => none
              | c :: _ =>
                if pySpace c = true
                then some ((r.dropWhile pySpace).takeWhile (fun d => d != '\n'))
                else none
            else none) = none
      by_cases hc0 : c0 = ':'
      · rw [if_pos hc0]
        cases r with
        | nil => rfl
        | cons c1 r1 =>
          have hns : pySpace c1 = false := hsub c1 (by simp)
          simp [hns]
      · rw [if_neg hc0]
  · rw [if_neg hp]

lemma reSearch_none_of_no_space (key : List Char) {s : List Char}
    (h : ∀ c ∈ s, pySpace c = false) : reSearch key s = none := by
  induction s with
  | nil => rfl
  | cons c rest ih =>
    show (match keyMatchAt key (c :: rest) with
          | some v => some v
          | none => reSearch key rest) = none
    rw [keyMatchAt_none_of_no_space key h]
    exact ih (fun d hd => h d (by simp [hd]))

lemma reSearch_cons (key : List Char) (c : Char) (rest : List Char) :
    reSearch key (c :: rest) = match keyMatchAt key (c :: rest) with
      | some v => some v
      | none => reSearch key rest := rfl

lemma keyMatchAt_key_colon_space (key v : List Char)
    (hv : ∀ c ∈ v, pySpace c = false) :
    keyMatchAt key (key ++ ':' :: ' ' :: v) = some v := by
  have hnl : ∀ c ∈ v, (c != '\n') = true := by
    intro c hc
    have : c ≠ '\n' := by
      intro he
      have := hv c hc
      rw [he] at this
      simp [pySpace] at this
    simpa using this
  unfold keyMatchAt
  rw [isPrefixOf_append, if_pos rfl]
  rw [List.drop_left]
  have hcol : pySpace ':' = false := rfl
  rw [List.dropWhile_cons]
  rw [hcol]
  simp only [Bool.false_eq_true, if_false, if_pos rfl]
  have hsp : pySpace ' ' = true := rfl
  rw [hsp]
  simp only [if_true]
  rw [List.dropWhile_cons, hsp]
  simp only [if_true]
  rw [dropWhile_eq_self_of_all _ hv, takeWhile_eq_self_of_all _ hnl]

lemma pyStrip_hash_append (r v : List Char) (hne : v ≠ [])
    (hv : ∀ c ∈ v, pySpace c = false) :
    pyStrip (('#' :: r) ++ v) = ('#' :: r) ++ v := by
  apply pyStrip_eq_self
  · intro c hc
    have h0 : (('#' :: r) ++ v).head? = some '#' := rfl
    rw [h0] at hc
    rw [← Option.some.inj hc]
    rfl
  · intro c hc
    rw [List.getLast?_append_of_ne_nil _ hne] at hc
    exact hv c (List.mem_of_mem_getLast? hc)

lemma bool_eq_false_not_true {b : Bool} (h : b = false) : ¬ b = true := by
  rw [h]
  simp

lemma reSearch_of_keyMatchAt {key s v : List Char} (hs : s ≠ [])
    (h : keyMatchAt key s = some v) : reSearch key s = some v := by
  cases s with
  | nil => exact absurd rfl hs
  | cons c rest => rw [reSearch_cons, h]

lemma handle_meta_title (st : St) (v : List Char)
    (hv : ∀ c ∈ v, pySpace c = false) :
    handle_meta st ("TITLE".toList ++ ':' :: ' ' :: v) = { st with title := v } := by
  unfold handle_meta
  rw [if_pos (isPrefixOf_append "TITLE".toList (':' :: ' ' :: v))]
  rw [reSearch_of_keyMatchAt (by simp) (keyMatchAt_key_colon_space "TITLE".toList v hv)]

lemma handle_meta_author (st : St) (v : List Char)
    (hv : ∀ c ∈ v, pySpace c = false) :
    handle_meta st ("AUTHOR".toList ++ ':' :: ' ' :: v) = { st with author := v } := by
  have hf : ("TITLE".toList).isPrefixOf ("AUTHOR".toList ++ ':' :: ' ' :: v) = false :=
    isPrefixOf_head_ne (by decide) _ _
  unfold handle_meta
  rw [if_neg (bool_eq_false_not_true hf)]
  rw [if_pos (isPrefixOf_append "AUTHOR".toList (':' :: ' ' :: v))]
  rw [reSearch_of_keyMatchAt (by simp) (keyMatchAt_key_colon_space "AUTHOR".toList v hv)]

lemma handle_meta_root (st : St) (v : List Char)
    (hv : ∀ c ∈ v, pySpace c = false) :
    handle_meta st ("ROOT".toList ++ ':' :: ' ' :: v) = { st with root_name := v } := by
  have hf1 : ("TITLE".toList).isPrefixOf ("ROOT".toList ++ ':' :: ' ' :: v) = false :=
    isPrefixOf_head_ne (by decide) _ _
  have hf2 : ("AUTHOR".toList).isPrefixOf ("ROOT".toList ++ ':' :: ' ' :: v) = false :=
    isPrefixOf_head_ne (by decide) _ _
  unfold handle_meta
  rw [if_neg (bool_eq_false_not_true hf1), if_neg (bool_eq_false_not_true hf2)]
  rw [if_pos (isPrefixOf_append "ROOT".toList (':' :: ' ' :: v))]
  rw [reSearch_of_keyMatchAt (by simp) (keyMatchAt_key_colon_space "ROOT".toList v hv)]

lemma handle_meta_no_space {s : List Char} (st : St)
    (hall : ∀ c ∈ s, pySpace c = false) : handle_meta st s = st := by
  unfold handle_meta
  by_cases h1 : ("TITLE".toList).isPrefixOf s = true
  · rw [if_pos h1, reSearch_none_of_no_space _ hall]
  · rw [if_neg h1]
    by_cases h2 : ("AUTHOR".toList).isPrefixOf s = true
    · rw [if_pos h2, reSearch_none_of_no_space _ hall]
    · rw [if_neg h2]
      by_cases h3 : ("ROOT".toList).isPrefixOf s = true
      · rw [if_pos h3, reSearch_none_of_no_space _ hall]
      · rw [if_neg h3]

lemma handle_meta_unknown (st : St) (s : List Char)
    (h1 : ("TITLE".toList).isPrefixOf s = false)
    (h2 : ("AUTHOR".toList).isPrefixOf s = false)
    (h3 : ("ROOT".toList).isPrefixOf s = false) :
    handle_meta st s = st := by
  unfold handle_meta
  rw [if_neg (bool_eq_false_not_true h1), if_neg (bool_eq_false_not_true h2), if_neg (bool_eq_false_not_true h3)]

/-- C5 (amended): metadata keys are matched case-sensitively in the form
`KEY: value` where the colon may be preceded by optional whitespace but must
be followed by at least one whitespace character (`\s+`).  With a single
space after the colon each key sets its field to the value; with no
whitespace after the colon the line is silently ignored, as are unknown
keys — no state change and no error in either case. -/
theorem c5_meta_colon_space (v : List Char) (hne : v ≠ [])
    (hv : ∀ c ∈ v, pySpace c = false) (st : St) :
    processLine st ("#+TITLE: ".toList ++ v) = Except.ok { st with title := v }
    ∧ processLine st ("#+AUTHOR: ".toList ++ v) = Except.ok { st with author := v }
    ∧ processLine st ("#+ROOT: ".toList ++ v) = Except.ok { st with root_name := v }
    ∧ processLine st ("#+TITLE:".toList ++ v) = Except.ok st
    ∧ processLine st ("#+DATE: ".toList ++ v) = Except.ok st := by
  refine ⟨?_, ?_, ?_, ?_, ?_⟩
  · have hstrip : pyStrip ("#+TITLE: ".toList ++ v) = "#+TITLE: ".toList ++ v :=
      pyStrip_hash_append "+TITLE: ".toList v hne hv
    rw [processLine_cases, hstrip]
    rw [if_pos (show ("#+".toList).isPrefixOf ("#+TITLE: ".toList ++ v) = true from
        isPrefixOf_append "#+".toList ("TITLE: ".toList ++ v))]
    exact congrArg Except.ok (handle_meta_title st v hv)
  · have hstrip : pyStrip ("#+AUTHOR: ".toList ++ v) = "#+AUTHOR: ".toList ++ v :=
      pyStrip_hash_append "+AUTHOR: ".toList v hne hv
    rw [processLine_cases, hstrip]
    rw [if_pos (show ("#+".toList).isPrefixOf ("#+AUTHOR: ".toList ++ v) = true from
        isPrefixOf_append "#+".toList ("AUTHOR: ".toList ++ v))]
    exact congrArg Except.ok (handle_meta_author st v hv)
  · have hstrip : pyStrip ("#+ROOT: ".toList ++ v) = "#+ROOT: ".toList ++ v :=
      pyStrip_hash_append "+ROOT: ".toList v hne hv
    rw [processLine_cases, hstrip]
    rw [if_pos (show ("#+".toList).isPrefixOf ("#+ROOT: ".toList ++ v) = true from
        isPrefixOf_append "#+".toList ("ROOT: ".toList ++ v))]
    exact congrArg Except.ok (handle_meta_root st v hv)
  · have hstrip : pyStrip ("#+TITLE:".toList ++ v) = "#+TITLE:".toList ++ v :=
      pyStrip_hash_append "+TITLE:".toList v hne hv
    rw [processLine_cases, hstrip]
    rw [if_pos (show ("#+".toList).isPrefixOf ("#+TITLE:".toList ++ v) = true from
        isPrefixOf_append "#+".toList ("TITLE:".toList ++ v))]
    refine congrArg Except.ok (handle_meta_no_space st ?_)
    intro c hc
    have hc' : c ∈ ("TITLE:".toList ++ v) := hc
    rcases List.mem_append.mp hc' with h1 | h1
    · have hfin : ∀ x ∈ "TITLE:".toList, pySpace x = false := by decide
      exact hfin c h1
    · exact hv c h1
  · have hstrip : pyStrip ("#+DATE: ".toList ++ v) = "#+DATE: ".toList ++ v :=
      pyStrip_hash_append "+DATE: ".toList v hne hv
    rw [processLine_cases, hstrip]
    rw [if_pos (show ("#+".toList).isPrefixOf ("#+DATE: ".toList ++ v) = true from
        isPrefixOf_append "#+".toList ("DATE: ".toList ++ v))]
    refine congrArg Except.ok (handle_meta_unknown st _ ?_ ?_ ?_)
    · exact isPrefixOf_head_ne (by decide) _ _
    · exact isPrefixOf_head_ne (by decide) _ _
    · exact isPrefixOf_head_ne (by decide) _ _

/-- C5 witness: with value `Demo`, `#+TITLE: Demo` sets the title while
`#+TITLE:Demo` and the unknown key `#+DATE: Demo` are ignored. -/
theorem c5_meta_colon_space_witness :
    ("Demo".toList ≠ [] ∧ ∀ c ∈ "Demo".toList, pySpace c = false)
    ∧ processLine st0 ("#+TITLE: Demo".toList)
        = Except.ok { st0 with title := "Demo".toList } :=
  ⟨⟨by decide, by decide⟩,
   (c5_meta_colon_space "Demo".toList (by decide) (by decide) st0).1⟩

/-! ### The builder invariant

`runHeads` over the classified headlines `(level, text)` builds, for every
headline `i`, the heap node `i`; slot `l` of the level-index structure holds
exactly the indices of level-`(l+1)` headlines in document order; and the
children of node `i` are exactly the headlines `j > i` of level
`level i + 1` with no headline of level `level i` strictly between. -/

def hLevel (hs : List (Nat × List Char)) (i : Nat) : Nat := (hs.getD i (0, [])).1

def hText (hs : List (Nat × List Char)) (i : Nat) : List Char := (hs.getD i (0, [])).2

def heapAt (hp : List PNode) (i : Nat) : PNode := hp.getD i ⟨0, [], []⟩

def BuildInv (hs : List (Nat × List Char)) (b : Build) : Prop :=
  b.heap.length = hs.length
  ∧ (∀ i, i < hs.length →
      (heapAt b.heap i).level = hLevel hs i ∧ (heapAt b.heap i).text = hText hs i)
  ∧ (∀ l, l < b.nodes.length →
      b.nodes.getD l [] = (List.range hs.length).filter (fun i => hLevel hs i == l + 1))
  ∧ (∀ i, i < hs.length → 1 ≤ hLevel hs i ∧ hLevel hs i ≤ b.nodes.length)
  ∧ (∀ i, i < hs.length →
      (heapAt b.heap i).children = (List.range hs.length).filter (childCond (levelsOf hs) i))

lemma getD_append_lt {α : Type u} (l : List α) (x d : α) {i : Nat} (hi : i < l.length) :
    (l ++ [x]).getD i d = l.getD i d := by
  rw [List.getD_eq_getElem?_getD (l := l ++ [x]), List.getElem?_append_left hi,
      ← List.getD_eq_getElem?_getD]

lemma getD_append_last {α : Type u} (l : List α) (x d : α) :
    (l ++ [x]).getD l.length d = x := by
  rw [List.getD_eq_getElem?_getD (l := l ++ [x]), List.getElem?_concat_length]
  rfl

lemma hLevel_append_lt {hs : List (Nat × List Char)} {h : Nat × List Char} {i : Nat}
    (hi : i < hs.length) : hLevel (hs ++ [h]) i = hLevel hs i := by
  unfold hLevel
  rw [getD_append_lt _ _ _ hi]

lemma hLevel_append_last {hs : List (Nat × List Char)} {h : Nat × List Char} :
    hLevel (hs ++ [h]) hs.length = h.1 := by
  unfold hLevel
  rw [getD_append_last]

lemma hText_append_lt {hs : List (Nat × List Char)} {h : Nat × List Char} {i : Nat}
    (hi : i < hs.length) : hText (hs ++ [h]) i = hText hs i := by
  unfold hText
  rw [getD_append_lt _ _ _ hi]

lemma hText_append_last {hs : List (Nat × List Char)} {h : Nat × List Char} :
    hText (hs ++ [h]) hs.length = h.2 := by
  unfold hText
  rw [getD_append_last]

lemma heapAt_append_lt {hp : List PNode} {x : PNode} {i : Nat} (hi : i < hp.length) :
    heapAt (hp ++ [x]) i = heapAt hp i := by
  unfold heapAt
  rw [getD_append_lt _ _ _ hi]

lemma heapAt_append_last {hp : List PNode} {x : PNode} :
    heapAt (hp ++ [x]) hp.length = x := by
  unfold heapAt
  rw [getD_append_last]

lemma levelsOf_getD (hs : List (Nat × List Char)) (j : Nat) :
    (levelsOf hs).getD j 0 = hLevel hs j := by
  unfold levelsOf hLevel
  cases hjq : hs[j]? <;>
    simp [List.getD_eq_getElem?_getD, List.getElem?_map, hjq]

lemma all_congr {α : Type u} {l : List α} {p q : α → Bool}
    (h : ∀ a ∈ l, p a = q a) : l.all p = l.all q := by
  induction l with
  | nil => rfl
  | cons a t ih =>
    simp only [List.all_cons, h a (by simp)]
    rw [ih (fun c hc => h c (by simp [hc]))]

lemma childCond_congr {levels levels' : List Nat} {i j : Nat}
    (hj : levels.getD j 0 = levels'.getD j 0)
    (hi : levels.getD i 0 = levels'.getD i 0)
    (hk : ∀ k, k < j → levels.getD k 0 = levels'.getD k 0) :
    childCond levels i j = childCond levels' i j := by
  unfold childCond
  have hall : (List.range j).all
        (fun k => !(decide (i < k) && (levels.getD k 0 == levels.getD i 0)))
      = (List.range j).all
        (fun k => !(decide (i < k) && (levels'.getD k 0 == levels'.getD i 0))) :=
    all_congr (fun k hkk => by rw [hk k (List.mem_range.mp hkk), hi])
  rw [hall, hj, hi]

lemma mem_le_getLast {l : List Nat} (hp : l.Pairwise (fun x1 x2 => x1 < x2))
    {m k : Nat} (hl : l.getLast? = some m) (hk : k ∈ l) : k ≤ m := by
  induction l with
  | nil => cases hk
  | cons a t ih =>
    cases t with
    | nil =>
      simp at hl hk
      omega
    | cons b t2 =>
      rw [List.getLast?_cons_cons] at hl
      rcases List.mem_cons.mp hk with h1 | h1
      · subst h1
        have hm : m ∈ b :: t2 := List.mem_of_mem_getLast? hl
        have : k < m := (List.pairwise_cons.mp hp).1 m hm
        omega
      · exact ih (List.pairwise_cons.mp hp).2 hl h1

lemma addChild_length (hp : List PNode) (pid cid : Nat) :
    (addChild hp pid cid).length = hp.length := by
  unfold addChild
  cases hp.get? pid <;> simp

lemma heapAt_addChild_ne (hp : List PNode) (pid cid : Nat) {i : Nat} (hne : i ≠ pid) :
    heapAt (addChild hp pid cid) i = heapAt hp i := by
  unfold addChild
  cases hg : hp.get? pid with
  | none => rfl
  | some nd =>
    unfold heapAt
    rw [List.getD_eq_getElem?_getD (l := hp.set pid _),
        List.getElem?_set_ne (fun he => hne he.symm), ← List.getD_eq_getElem?_getD]

lemma heapAt_addChild_self (hp : List PNode) (pid cid : Nat) (hlt : pid < hp.length) :
    heapAt (addChild hp pid cid) pid
      = ⟨(heapAt hp pid).level, (heapAt hp pid).text, (heapAt hp pid).children ++ [cid]⟩ := by
  unfold addChild
  cases hg : hp.get? pid with
  | none =>
    rw [List.get?_eq_getElem?] at hg
    rw [List.getElem?_eq_none_iff] at hg
    omega
  | some nd =>
    have hnd : nd = heapAt hp pid := by
      unfold heapAt
      rw [List.getD_eq_getElem?_getD, ← List.get?_eq_getElem?, hg]
      rfl
    unfold heapAt
    rw [List.getD_eq_getElem?_getD (l := hp.set pid _), List.getElem?_set_self hlt]
    rw [hnd]
    rfl

lemma getD_set_self {α : Type u} (l : List α) (i : Nat) (v d : α) (hi : i < l.length) :
    (l.set i v).getD i d = v := by
  rw [List.getD_eq_getElem?_getD (l := l.set i v), List.getElem?_set_self hi]
  rfl

lemma getD_set_ne {α : Type u} (l : List α) (i : Nat) (v d : α) {j : Nat} (hj : j ≠ i) :
    (l.set i v).getD j d = l.getD j d := by
  rw [List.getD_eq_getElem?_getD (l := l.set i v),
      List.getElem?_set_ne (fun he => hj he.symm), ← List.getD_eq_getElem?_getD]

lemma slots_append_inv {hs : List (Nat × List Char)} {h : Nat × List Char}
    {nodes : List (List Nat)} {idx : Nat}
    (hslots : ∀ l, l < nodes.length →
        nodes.getD l [] = (List.range hs.length).filter (fun i => hLevel hs i == l + 1))
    (hlev : ∀ i, i < hs.length → 1 ≤ hLevel hs i ∧ hLevel hs i ≤ nodes.length)
    (hcond : h.1 = idx + 1) (hle : idx ≤ nodes.length) :
    (∀ l, l < (appendAtSlot nodes idx hs.length).length →
        (appendAtSlot nodes idx hs.length).getD l []
          = (List.range (hs.length + 1)).filter (fun i => hLevel (hs ++ [h]) i == l + 1))
    ∧ (∀ i, i < hs.length + 1 →
        1 ≤ hLevel (hs ++ [h]) i
          ∧ hLevel (hs ++ [h]) i ≤ (appendAtSlot nodes idx hs.length).length) := by
  have hsplit : ∀ l : Nat,
      (List.range (hs.length + 1)).filter (fun i => hLevel (hs ++ [h]) i == l + 1)
        = ((List.range hs.length).filter (fun i => hLevel hs i == l + 1))
          ++ (if (h.1 == l + 1) = true then [hs.length] else []) := by
    intro l
    rw [List.range_succ, List.filter_append]
    congr 1
    · exact List.filter_congr (fun i hi => by
        rw [hLevel_append_lt (List.mem_range.mp hi)])
    · simp only [List.filter_cons, List.filter_nil, hLevel_append_last]
  unfold appendAtSlot
  by_cases hi : idx < nodes.length
  · rw [if_pos hi]
    constructor
    · intro l hlen2
      rw [List.length_set] at hlen2
      rw [hsplit l]
      by_cases hli : l = idx
      · subst hli
        rw [getD_set_self _ _ _ _ hi, hslots _ hi]
        rw [if_pos (show (h.1 == l + 1) = true by simp only [beq_iff_eq]; omega)]
      · rw [getD_set_ne _ _ _ _ hli, hslots l hlen2]
        rw [if_neg (show ¬ (h.1 == l + 1) = true by simp only [beq_iff_eq]; omega)]
        simp
    · intro i hi2
      rw [List.length_set]
      by_cases hin : i < hs.length
      · rw [hLevel_append_lt hin]
        exact hlev i hin
      · have hieq : i = hs.length := by omega
        subst hieq
        rw [hLevel_append_last]
        exact ⟨by omega, by omega⟩
  · rw [if_neg hi]
    have hEq : idx = nodes.length := by omega
    have hlenapp : (nodes ++ [[hs.length]]).length = nodes.length + 1 := by simp
    constructor
    · intro l hlen2
      rw [hlenapp] at hlen2
      rw [hsplit l]
      by_cases hli : l < nodes.length
      · rw [getD_append_lt _ _ _ hli, hslots l hli]
        rw [if_neg (show ¬ (h.1 == l + 1) = true by simp only [beq_iff_eq]; omega)]
        simp
      · have hleq : l = nodes.length := by omega
        subst hleq
        rw [getD_append_last]
        have hnil : (List.range hs.length).filter
            (fun i => hLevel hs i == nodes.length + 1) = [] := by
          rw [List.filter_eq_nil_iff]
          intro a ha
          have hb := (hlev a (List.mem_range.mp ha)).2
          simp only [beq_iff_eq]
          omega
        rw [hnil]
        rw [if_pos (show (h.1 == nodes.length + 1) = true by simp only [beq_iff_eq]; omega)]
        rfl
    · intro i hi2
      rw [hlenapp]
      by_cases hin : i < hs.length
      · rw [hLevel_append_lt hin]
        have := hlev i hin
        exact ⟨this.1, by omega⟩
      · have hieq : i = hs.length := by omega
        subst hieq
        rw [hLevel_append_last]
        exact ⟨by omega, by omega⟩

lemma levelsOf_append_getD_lt {hs : List (Nat × List Char)} {h : Nat × List Char}
    {i : Nat} (hi : i < hs.length) :
    (levelsOf (hs ++ [h])).getD i 0 = hLevel hs i := by
  rw [levelsOf_getD, hLevel_append_lt hi]

lemma levelsOf_append_getD_last {hs : List (Nat × List Char)} {h : Nat × List Char} :
    (levelsOf (hs ++ [h])).getD hs.length 0 = h.1 := by
  rw [levelsOf_getD, hLevel_append_last]

lemma childCond_append_lt {hs : List (Nat × List Char)} {h : Nat × List Char}
    {i j : Nat} (hi : i < hs.length) (hj : j < hs.length) :
    childCond (levelsOf (hs ++ [h])) i j = childCond (levelsOf hs) i j :=
  childCond_congr
    ((levelsOf_append_getD_lt hj).trans (levelsOf_getD hs j).symm)
    ((levelsOf_append_getD_lt hi).trans (levelsOf_getD hs i).symm)
    (fun k hk =>
      ((levelsOf_append_getD_lt (lt_trans hk hj)).trans (levelsOf_getD hs k).symm))

lemma childCond_not_lt (levels : List Nat) {i j : Nat} (hij : ¬ i < j) :
    childCond levels i j = false := by
  unfold childCond
  simp [hij]

lemma child_filter_split {hs : List (Nat × List Char)} {h : Nat × List Char}
    {i : Nat} (hi : i < hs.length) :
    (List.range (hs.length + 1)).filter (childCond (levelsOf (hs ++ [h])) i)
      = ((List.range hs.length).filter (childCond (levelsOf hs) i))
        ++ (if childCond (levelsOf (hs ++ [h])) i hs.length = true
            then [hs.length] else []) := by
  rw [List.range_succ, List.filter_append]
  congr 1
  · exact List.filter_congr (fun j hj => childCond_append_lt hi (List.mem_range.mp hj))
  · simp only [List.filter_cons, List.filter_nil]

lemma child_filter_last_nil (levels : List Nat) (n : Nat) :
    (List.range (n + 1)).filter (childCond levels n) = [] := by
  rw [List.filter_eq_nil_iff]
  intro j hj
  have : j < n + 1 := List.mem_range.mp hj
  rw [childCond_not_lt levels (by omega)]
  simp

lemma childCond_append_last_eval {hs : List (Nat × List Char)} {h : Nat × List Char}
    {i : Nat} (hi : i < hs.length) :
    childCond (levelsOf (hs ++ [h])) i hs.length
      = ((h.1 == hLevel hs i + 1)
          && (List.range hs.length).all
              (fun k => !(decide (i < k) && (hLevel hs k == hLevel hs i)))) := by
  unfold childCond
  rw [levelsOf_append_getD_last, levelsOf_append_getD_lt hi]
  rw [decide_eq_true hi]
  rw [Bool.true_and]
  congr 1
  exact all_congr (fun k hk => by
    rw [levelsOf_append_getD_lt (List.mem_range.mp hk)])

/-- One successful `insertNode` step preserves the builder invariant. -/
lemma insert_BuildInv {hs : List (Nat × List Char)} {h : Nat × List Char} {b b' : Build}
    (hInv : BuildInv hs b) (hl : 1 ≤ h.1) (hok : insertNode b h = Except.ok b') :
    BuildInv (hs ++ [h]) b' := by
  obtain ⟨hlen, hheap, hslots, hlev, hchild⟩ := hInv
  have hlenapp : (hs ++ [h]).length = hs.length + 1 := by simp
  by_cases h1 : (h.1 == 1) = true
  · -- level-1 branch (lines 88-92)
    have heq1 : h.1 = 1 := by simpa using h1
    unfold insertNode at hok
    rw [if_pos h1] at hok
    have hb' : b' = ⟨b.heap ++ [⟨h.1, h.2, []⟩], appendAtSlot b.nodes 0 b.heap.length⟩ :=
      (Except.ok.inj hok).symm
    subst hb'
    rw [hlen]
    have hslotlem := slots_append_inv (h := h) hslots hlev (by omega : h.1 = 0 + 1) (by omega)
    refine ⟨?_, ?_, ?_, ?_, ?_⟩
    · show (b.heap ++ [(⟨h.1, h.2, []⟩ : PNode)]).length = (hs ++ [h]).length
      simp [hlen]
    · intro i hi
      rw [hlenapp] at hi
      show (heapAt (b.heap ++ [(⟨h.1, h.2, []⟩ : PNode)]) i).level = hLevel (hs ++ [h]) i
        ∧ (heapAt (b.heap ++ [(⟨h.1, h.2, []⟩ : PNode)]) i).text = hText (hs ++ [h]) i
      by_cases hin : i < hs.length
      · rw [heapAt_append_lt (by omega : i < b.heap.length),
            hLevel_append_lt hin, hText_append_lt hin]
        exact hheap i hin
      · have hieq : i = hs.length := by omega
        subst hieq
        have hlast := @heapAt_append_last b.heap ⟨h.1, h.2, []⟩
        rw [hlen] at hlast
        rw [hlast, hLevel_append_last, hText_append_last]
        exact ⟨rfl, rfl⟩
    · intro l hlenl
      replace hlenl : l < (appendAtSlot b.nodes 0 hs.length).length := hlenl
      show (appendAtSlot b.nodes 0 hs.length).getD l []
        = (List.range (hs ++ [h]).length).filter (fun i => hLevel (hs ++ [h]) i == l + 1)
      rw [hlenapp]
      exact hslotlem.1 l hlenl
    · intro i hi
      rw [hlenapp] at hi
      show 1 ≤ hLevel (hs ++ [h]) i
        ∧ hLevel (hs ++ [h]) i ≤ (appendAtSlot b.nodes 0 hs.length).length
      exact hslotlem.2 i hi
    · intro i hi
      rw [hlenapp] at hi
      show (heapAt (b.heap ++ [(⟨h.1, h.2, []⟩ : PNode)]) i).children
        = (List.range (hs ++ [h]).length).filter (childCond (levelsOf (hs ++ [h])) i)
      by_cases hin : i < hs.length
      · have hcc : childCond (levelsOf (hs ++ [h])) i hs.length = false := by
          rw [childCond_append_last_eval hin]
          have h1le := (hlev i hin).1
          have hbe : (h.1 == hLevel hs i + 1) = false := by
            rw [beq_eq_false_iff_ne]
            omega
          rw [hbe, Bool.false_and]
        rw [heapAt_append_lt (by omega : i < b.heap.length), hlenapp,
            child_filter_split hin, hchild i hin,
            if_neg (bool_eq_false_not_true hcc)]
        simp
      · have hieq : i = hs.length := by omega
        subst hieq
        have hlast := @heapAt_append_last b.heap ⟨h.1, h.2, []⟩
        rw [hlen] at hlast
        rw [hlast, hlenapp, child_filter_last_nil]
  · -- deeper-level branch (lines 93-99)
    have h2 : 2 ≤ h.1 := by
      have : h.1 ≠ 1 := by simpa using h1
      omega
    unfold insertNode at hok
    rw [if_neg h1] at hok
    have hok2 : (match b.nodes.get? (h.1 - 2) with
          | none => (Except.error "IndexError: list index out of range" : Except String Build)
          | some slot =>
            match slot.getLast? with
            | none => Except.error "IndexError: list index out of range"
            | some pid => Except.ok ⟨addChild (b.heap ++ [⟨h.1, h.2, []⟩]) pid b.heap.length,
                                     appendAtSlot b.nodes (h.1 - 1) b.heap.length⟩)
        = Except.ok b' := hok
    cases hg : b.nodes.get? (h.1 - 2) with
    | none => rw [hg] at hok2; exact absurd hok2 (by simp)
    | some slot =>
      rw [hg] at hok2
      have hok3 : (match slot.getLast? with
            | none => (Except.error "IndexError: list index out of range" : Except String Build)
            | some pid => Except.ok ⟨addChild (b.heap ++ [⟨h.1, h.2, []⟩]) pid b.heap.length,
                                     appendAtSlot b.nodes (h.1 - 1) b.heap.length⟩)
          = Except.ok b' := hok2
      cases hgl : slot.getLast? with
      | none => rw [hgl] at hok3; exact absurd hok3 (by simp)
      | some pid =>
        rw [hgl] at hok3
        have hb' : b' = ⟨addChild (b.heap ++ [⟨h.1, h.2, []⟩]) pid b.heap.length,
                         appendAtSlot b.nodes (h.1 - 1) b.heap.length⟩ :=
          (Except.ok.inj hok3).symm
        subst hb'
        have hslotlt : h.1 - 2 < b.nodes.length := by
          by_contra hge
          rw [List.get?_eq_none.mpr (by omega)] at hg
          exact absurd hg (by simp)
        have hslotval : slot
            = (List.range hs.length).filter (fun i => hLevel hs i == h.1 - 1) := by
          have hgd : b.nodes.getD (h.1 - 2) [] = slot := by
            rw [List.getD_eq_getElem?_getD, ← List.get?_eq_getElem?, hg]
            rfl
          rw [← hgd, hslots _ hslotlt,
              (show h.1 - 2 + 1 = h.1 - 1 from by omega)]
        have hpmem : pid ∈ slot := List.mem_of_mem_getLast? hgl
        have hpidlt : pid < hs.length := by
          have := List.mem_filter.mp (hslotval ▸ hpmem)
          exact List.mem_range.mp this.1
        have hpidlev : hLevel hs pid = h.1 - 1 := by
          have := List.mem_filter.mp (hslotval ▸ hpmem)
          simpa using this.2
        have hpair : slot.Pairwise (fun a c => a < c) := by
          rw [hslotval]
          exact (List.pairwise_lt_range hs.length).filter _
        have hlast : ∀ k, pid < k → k < hs.length → hLevel hs k ≠ h.1 - 1 := by
          intro k hk1 hk2 hkeq
          have hkmem : k ∈ slot := by
            rw [hslotval]
            exact List.mem_filter.mpr ⟨List.mem_range.mpr hk2, by simp [hkeq]⟩
          have := mem_le_getLast hpair hgl hkmem
          omega
        have hpidheap : pid < (b.heap ++ [(⟨h.1, h.2, []⟩ : PNode)]).length := by
          simp [hlen]
          omega
        rw [hlen]
        have hslotlem := slots_append_inv (h := h) hslots hlev
          (show h.1 = (h.1 - 1) + 1 from by omega) (by omega)
        refine ⟨?_, ?_, ?_, ?_, ?_⟩
        · show (addChild (b.heap ++ [(⟨h.1, h.2, []⟩ : PNode)]) pid hs.length).length
            = (hs ++ [h]).length
          rw [addChild_length]
          simp [hlen]
        · intro i hi
          rw [hlenapp] at hi
          show (heapAt (addChild (b.heap ++ [(⟨h.1, h.2, []⟩ : PNode)]) pid hs.length) i).level
              = hLevel (hs ++ [h]) i
            ∧ (heapAt (addChild (b.heap ++ [(⟨h.1, h.2, []⟩ : PNode)]) pid hs.length) i).text
              = hText (hs ++ [h]) i
          by_cases hip : i = pid
          · subst hip
            rw [heapAt_addChild_self _ _ _ hpidheap]
            constructor
            · show (heapAt (b.heap ++ [(⟨h.1, h.2, []⟩ : PNode)]) i).level = _
              rw [heapAt_append_lt (by omega : i < b.heap.length),
                  hLevel_append_lt hpidlt]
              exact (hheap i hpidlt).1
            · show (heapAt (b.heap ++ [(⟨h.1, h.2, []⟩ : PNode)]) i).text = _
              rw [heapAt_append_lt (by omega : i < b.heap.length),
                  hText_append_lt hpidlt]
              exact (hheap i hpidlt).2
          · rw [heapAt_addChild_ne _ _ _ hip]
            by_cases hin : i < hs.length
            · rw [heapAt_append_lt (by omega : i < b.heap.length),
                  hLevel_append_lt hin, hText_append_lt hin]
              exact hheap i hin
            · have hieq : i = hs.length := by omega
              subst hieq
              have hlast2 := @heapAt_append_last b.heap ⟨h.1, h.2, []⟩
              rw [hlen] at hlast2
              rw [hlast2, hLevel_append_last, hText_append_last]
              exact ⟨rfl, rfl⟩
        · intro l hlenl
          replace hlenl : l < (appendAtSlot b.nodes (h.1 - 1) hs.length).length := hlenl
          show (appendAtSlot b.nodes (h.1 - 1) hs.length).getD l []
            = (List.range (hs ++ [h]).length).filter (fun i => hLevel (hs ++ [h]) i == l + 1)
          rw [hlenapp]
          exact hslotlem.1 l hlenl
        · intro i hi
          rw [hlenapp] at hi
          show 1 ≤ hLevel (hs ++ [h]) i
            ∧ hLevel (hs ++ [h]) i ≤ (appendAtSlot b.nodes (h.1 - 1) hs.length).length
          exact hslotlem.2 i hi
        · intro i hi
          rw [hlenapp] at hi
          show (heapAt (addChild (b.heap ++ [(⟨h.1, h.2, []⟩ : PNode)]) pid hs.length) i).children
            = (List.range (hs ++ [h]).length).filter (childCond (levelsOf (hs ++ [h])) i)
          by_cases hip : i = pid
          · subst hip
            rw [heapAt_addChild_self _ _ _ hpidheap]
            show (heapAt (b.heap ++ [(⟨h.1, h.2, []⟩ : PNode)]) i).children ++ [hs.length] = _
            rw [heapAt_append_lt (by omega : i < b.heap.length), hchild i hpidlt]
            rw [hlenapp, child_filter_split hpidlt]
            have hcc : childCond (levelsOf (hs ++ [h])) i hs.length = true := by
              rw [childCond_append_last_eval hpidlt]
              have hbe : (h.1 == hLevel hs i + 1) = true := by
                simp only [beq_iff_eq]
                omega
              rw [hbe, Bool.true_and, List.all_eq_true]
              intro k hk
              by_cases hpk : i < k
              · have hne : hLevel hs k ≠ hLevel hs i := by
                  rw [hpidlev]
                  exact hlast k hpk (List.mem_range.mp hk)
                have hbf : (hLevel hs k == hLevel hs i) = false := by
                  rw [beq_eq_false_iff_ne]
                  exact hne
                rw [hbf]
                simp
              · rw [decide_eq_false hpk]
                simp
            rw [if_pos hcc]
          · rw [heapAt_addChild_ne _ _ _ hip]
            by_cases hin : i < hs.length
            · rw [heapAt_append_lt (by omega : i < b.heap.length), hchild i hin]
              rw [hlenapp, child_filter_split hin]
              have hcc : childCond (levelsOf (hs ++ [h])) i hs.length = false := by
                rw [childCond_append_last_eval hin]
                cases hbe : (h.1 == hLevel hs i + 1) with
                | false => rw [Bool.false_and]
                | true =>
                  rw [Bool.true_and]
                  have hieq : hLevel hs i = h.1 - 1 := by
                    have := eq_of_beq hbe
                    omega
                  have hilt : i < pid := by
                    by_contra hge
                    have hpi : pid < i := by omega
                    exact (hlast i hpi hin) hieq
                  rw [List.all_eq_false]
                  refine ⟨pid, List.mem_range.mpr hpidlt, ?_⟩
                  rw [decide_eq_true hilt, Bool.true_and]
                  have hbp : (hLevel hs pid == hLevel hs i) = true := by
                    simp only [beq_iff_eq]
                    omega
                  rw [hbp]
                  simp
              rw [if_neg (bool_eq_false_not_true hcc)]
              simp
            · have hieq : i = hs.length := by omega
              subst hieq
              have hlast2 := @heapAt_append_last b.heap ⟨h.1, h.2, []⟩
              rw [hlen] at hlast2
              rw [hlast2, hlenapp, child_filter_last_nil]

lemma BuildInv_nil : BuildInv [] ⟨[], []⟩ := by
  refine ⟨rfl, ?_, ?_, ?_, ?_⟩ <;> intro i hi <;> simp at hi

lemma runHeads_BuildInv (hs : List (Nat × List Char)) :
    ∀ b : Build, (∀ x ∈ hs, 1 ≤ x.1) →
    runHeads ⟨[], []⟩ hs = Except.ok b → BuildInv hs b := by
  induction hs using List.reverseRecOn with
  | nil =>
    intro b _ hok
    have hb : b = ⟨[], []⟩ := (Except.ok.inj hok).symm
    subst hb
    exact BuildInv_nil
  | append_singleton hs h ih =>
    intro b hlev1 hok
    rw [runHeads_append] at hok
    cases hr : runHeads ⟨[], []⟩ hs with
    | error e => rw [hr] at hok; exact absurd hok (by simp)
    | ok b1 =>
      rw [hr] at hok
      have hok2 : (match insertNode b1 h with
            | Except.ok b2 => Except.ok b2
            | Except.error e => (Except.error e : Except String Build)) = Except.ok b := hok
      cases hins : insertNode b1 h with
      | error e => rw [hins] at hok2; exact absurd hok2 (by simp)
      | ok b2 =>
        rw [hins] at hok2
        have hb : b2 = b := Except.ok.inj hok2
        subst hb
        exact insert_BuildInv (ih b1 (fun x hx => hlev1 x (by simp [hx])) hr)
          (hlev1 h (by simp)) hins

lemma headsOf_cons (l : List Char) (ls : List (List Char)) :
    headsOf (l :: ls) = match nodeMatch (pyStrip l) with
      | some h => h :: headsOf ls
      | none => headsOf ls := by
  unfold headsOf
  rw [List.filterMap_cons]
  cases nodeMatch (pyStrip l) <;> rfl

lemma headsOf_level_pos (lines : List (List Char)) : ∀ x ∈ headsOf lines, 1 ≤ x.1 := by
  intro x hx
  obtain ⟨l, _, hnm⟩ := List.mem_filterMap.mp hx
  obtain ⟨a, c⟩ := x
  exact nodeMatch_level_pos hnm

lemma parse_runHeads (lines : List (List Char)) : ∀ st st' : St,
    parse st lines = Except.ok st' →
    runHeads ⟨st.heap, st.nodes⟩ (headsOf lines) = Except.ok ⟨st'.heap, st'.nodes⟩ := by
  induction lines with
  | nil =>
    intro st st' hp
    have hst : st' = st := (Except.ok.inj hp).symm
    subst hst
    rfl
  | cons l ls ih =>
    intro st st' hp
    have hp2 : (match processLine st l with
          | Except.ok st1 => parse st1 ls
          | Except.error e => (Except.error e : Except String St)) = Except.ok st' := hp
    cases hpl : processLine st l with
    | error e => rw [hpl] at hp2; exact absurd hp2 (by simp)
    | ok st1 =>
      rw [hpl] at hp2
      rw [headsOf_cons]
      rw [processLine_cases] at hpl
      by_cases h1 : ("#+".toList).isPrefixOf (pyStrip l) = true
      · rw [if_pos h1] at hpl
        have hst1 : st1 = handle_meta st ((pyStrip l).drop 2) := (Except.ok.inj hpl).symm
        have hsh : ∃ r, pyStrip l = '#' :: r := by
          cases hs : pyStrip l with
          | nil => rw [hs] at h1; exact absurd h1 (by simp [List.isPrefixOf])
          | cons c r =>
            rw [hs] at h1
            have hc : ('#' == c) = true := by
              by_contra hne
              have hf : ('#' == c) = false := by
                revert hne
                cases ('#' == c) <;> simp
              simp [List.isPrefixOf, hf] at h1
            exact ⟨r, by rw [← eq_of_beq hc]⟩
        obtain ⟨r, hr⟩ := hsh
        have hnm : nodeMatch (pyStrip l) = none := by
          apply nodeMatch_none_of_not_star
          rw [hr]
          have hss : ('*' == '#') = false := rfl
          simp [List.isPrefixOf, hss]
        rw [hnm]
        have hb := handle_meta_build st ((pyStrip l).drop 2)
        have hbeq : (⟨st1.heap, st1.nodes⟩ : Build) = ⟨st.heap, st.nodes⟩ := by
          rw [hst1, hb.1, hb.2]
        rw [← hbeq]
        exact ih st1 st' hp2
      · rw [if_neg h1] at hpl
        by_cases h2 : ("*".toList).isPrefixOf (pyStrip l) = true
        · rw [if_pos h2] at hpl
          cases hnm : nodeMatch (pyStrip l) with
          | none =>
            unfold add_node at hpl
            rw [hnm] at hpl
            have hst1 : st1 = st := (Except.ok.inj hpl).symm
            subst hst1
            exact ih st1 st' hp2
          | some hd =>
            unfold add_node at hpl
            rw [hnm] at hpl
            have hpl2 : (match insertNode ⟨st.heap, st.nodes⟩ hd with
                  | Except.ok bb => Except.ok { st with heap := bb.heap, nodes := bb.nodes }
                  | Except.error e => (Except.error e : Except String St)) = Except.ok st1 := hpl
            cases hins : insertNode ⟨st.heap, st.nodes⟩ hd with
            | error e => rw [hins] at hpl2; exact absurd hpl2 (by simp)
            | ok bb =>
              rw [hins] at hpl2
              have hst1 : st1 = { st with heap := bb.heap, nodes := bb.nodes } :=
                (Except.ok.inj hpl2).symm
              show (match insertNode ⟨st.heap, st.nodes⟩ hd with
                    | Except.ok b' => runHeads b' (headsOf ls)
                    | Except.error e => Except.error e) = _
              rw [hins]
              have hbb : (⟨st1.heap, st1.nodes⟩ : Build) = bb := by
                rw [hst1]
              rw [← hbb]
              exact ih st1 st' hp2
        · rw [if_neg h2] at hpl
          have hst1 : st1 = st := (Except.ok.inj hpl).symm
          subst hst1
          have hnm : nodeMatch (pyStrip l) = none := nodeMatch_none_of_not_star (by
            revert h2
            cases ("*".toList).isPrefixOf (pyStrip l) <;> simp)
          rw [hnm]
          exact ih st1 st' hp2

/-- C4 (amended): for every parse-accepted input, the children of the node
created by headline `i` are exactly the headlines `j` after `i` whose level
is `level i + 1`, with no intervening headline of level exactly `level i`
(`childCond`); in particular the children count is the size of that window.
Headlines of lower level between `i` and `j` do not close the window. -/
theorem c4_children_window (lines : List (List Char)) (st : St)
    (hp : parse st0 lines = Except.ok st) (i : Nat)
    (hi : i < (headsOf lines).length) :
    ((heapAt st.heap i).children).length
      = ((List.range (headsOf lines).length).filter
          (childCond (levelsOf (headsOf lines)) i)).length := by
  have hrun := parse_runHeads lines st0 st hp
  have hInv := runHeads_BuildInv (headsOf lines) ⟨st.heap, st.nodes⟩
    (headsOf_level_pos lines) hrun
  exact congrArg List.length (hInv.2.2.2.2 i hi)

/-- The state after parsing `* A / ** B`, used by the C4 witness. -/
def twoHeadSt : St :=
  ⟨[], [], [], [⟨1, "A".toList, [1]⟩, ⟨2, "B".toList, []⟩], [[0], [1]]⟩

/-- C4 witness: on `* A / ** B` the root node's children count is `1`,
matching the window count. -/
theorem c4_children_window_witness :
    parse st0 ["* A".toList, "** B".toList] = Except.ok twoHeadSt
    ∧ 0 < (headsOf ["* A".toList, "** B".toList]).length
    ∧ ((heapAt twoHeadSt.heap 0).children).length
      = ((List.range (headsOf ["* A".toList, "** B".toList]).length).filter
          (childCond (levelsOf (headsOf ["* A".toList, "** B".toList])) 0)).length :=
  ⟨by decide, by decide,
   c4_children_window ["* A".toList, "** B".toList] twoHeadSt (by decide) 0 (by decide)⟩

lemma filter_level_map_text (hs : List (Nat × List Char)) :
    ((List.range hs.length).filter (fun i => hLevel hs i == 1)).map (hText hs)
      = hs.filterMap (fun h => if h.1 = 1 then some h.2 else none) := by
  induction hs using List.reverseRecOn with
  | nil => rfl
  | append_singleton hs h ih =>
    have hfil : (List.range hs.length).filter (fun i => hLevel (hs ++ [h]) i == 1)
        = (List.range hs.length).filter (fun i => hLevel hs i == 1) :=
      List.filter_congr (fun i hi => by rw [hLevel_append_lt (List.mem_range.mp hi)])
    have hmap : ((List.range hs.length).filter (fun i => hLevel hs i == 1)).map
          (hText (hs ++ [h]))
        = ((List.range hs.length).filter (fun i => hLevel hs i == 1)).map (hText hs) :=
      List.map_congr_left (fun i hi => by
        have hlt : i < hs.length := List.mem_range.mp (List.mem_of_mem_filter hi)
        exact hText_append_lt hlt)
    rw [(show (hs ++ [h]).length = hs.length + 1 by simp), List.range_succ,
        List.filter_append, List.map_append, List.filterMap_append]
    rw [hfil, hmap, ih]
    congr 1
    simp only [List.filter_cons, List.filter_nil, List.filterMap_cons, List.filterMap_nil]
    rw [hLevel_append_last]
    by_cases hone : h.1 = 1
    · rw [if_pos (show (h.1 == 1) = true by simpa using hone), if_pos hone]
      simp [hText_append_last]
    · rw [if_neg (bool_eq_false_not_true (by rw [beq_eq_false_iff_ne]; exact hone)),
          if_neg hone]
      rfl

/-- C7: after a successful parse, slot 0 of the level-index structure holds
exactly one node per level-1 headline of the input, in document order (keyed
here by the node texts). -/
theorem c7_roots_in_order (lines : List (List Char)) (st : St)
    (hp : parse st0 lines = Except.ok st) :
    (st.nodes.getD 0 []).map (textOf st.heap)
      = (headsOf lines).filterMap (fun h => if h.1 = 1 then some h.2 else none) := by
  have hrun := parse_runHeads lines st0 st hp
  obtain ⟨hlen, hheap, hslots, hlev, hchild⟩ :=
    runHeads_BuildInv (headsOf lines) ⟨st.heap, st.nodes⟩ (headsOf_level_pos lines) hrun
  by_cases h0 : 0 < st.nodes.length
  · have hs0 := hslots 0 h0
    rw [(show (0 : Nat) + 1 = 1 by rfl)] at hs0
    rw [hs0]
    rw [List.map_congr_left (fun i hi => show textOf st.heap i = hText (headsOf lines) i by
      have hlt : i < (headsOf lines).length := List.mem_range.mp (List.mem_of_mem_filter hi)
      exact (hheap i hlt).2)]
    exact filter_level_map_text (headsOf lines)
  · have hn0 : st.nodes.length = 0 := by omega
    have hhs : (headsOf lines).length = 0 := by
      by_contra hne
      have hx := hlev 0 (by omega)
      have hx1 : 1 ≤ hLevel (headsOf lines) 0 := hx.1
      have hx2 : hLevel (headsOf lines) 0 ≤ st.nodes.length := hx.2
      omega
    rw [List.length_eq_zero.mp hhs, List.length_eq_zero.mp hn0]
    rfl

/-- The state after parsing `* A / ** B / * C`, used by the C7 witness. -/
def threeHeadSt : St :=
  ⟨[], [], [],
   [⟨1, "A".toList, [1]⟩, ⟨2, "B".toList, []⟩, ⟨1, "C".toList, []⟩],
   [[0, 2], [1]]⟩

/-- C7 witness: on `* A / ** B / * C` slot 0 holds the nodes `A` and `C`,
the two level-1 headlines, in document order. -/
theorem c7_roots_in_order_witness :
    parse st0 ["* A".toList, "** B".toList, "* C".toList] = Except.ok threeHeadSt
    ∧ (threeHeadSt.nodes.getD 0 []).map (textOf threeHeadSt.heap)
      = (headsOf ["* A".toList, "** B".toList, "* C".toList]).filterMap
          (fun h => if h.1 = 1 then some h.2 else none) :=
  ⟨by decide,
   c7_roots_in_order ["* A".toList, "** B".toList, "* C".toList] threeHeadSt (by decide)⟩
